import Mathlib

/-!
Verification development for the DelaunayVoronoiCreator repository.

The repository consists of one Python script, `DelaunayVoronoiCreator.py`,
which visualizes incremental Delaunay triangulation and Voronoi diagrams:
it seeds a random generator with 42, builds an array `all_points` of three
fixed seed points followed by 1000 random points, and on each animation
frame appends the next point to `current_points` and recomputes the full
Delaunay triangulation and Voronoi diagram from scratch via library calls.

The specification additionally describes an incremental Delaunay
triangulation engine with a Voronoi dual extractor; in the script both
structures are computed by external library routines, so the engine
(geometric kernel, mesh, insertion API with typed errors, Voronoi
extraction) is modelled here from the specification, over an arbitrary
linearly ordered commutative ring of exact coordinates (the spec requires
exact, non-floating-point predicates; `ℚ` and `ℤ` are instances), while
the script's frame/update loop is embedded directly from the source.
-/

/-- A 2D point: an immutable coordinate pair.  Modelled from the spec:
"Point: immutable 2D coordinate pair (x, y)". -/
structure Pt (α : Type) where
  x : α
  y : α
deriving DecidableEq

variable {α : Type} [LinearOrderedCommRing α]

/-- Orientation cross product: positive when `c` lies to the left of the
directed line from `a` to `b`, zero when `a`, `b`, `c` are collinear.
Modelled from the spec: "orientation(a, b, c) ... computed via the sign of
the cross product". -/
def cross (a b c : Pt α) : α :=
  (b.x - a.x) * (c.y - a.y) - (b.y - a.y) * (c.x - a.x)

/-- The in-circle determinant: the 3x3 determinant of the rows
(a - d, b - d, c - d) lifted to the paraboloid, whose sign (relative to the
orientation of the triangle) decides whether `d` lies inside the
circumcircle of `a b c`.  Modelled from the spec: "inCircle(a, b, c, d) ...
of point d relative to the circumcircle of (a,b,c)". -/
def icDet (a b c d : Pt α) : α :=
  let a1 := a.x - d.x
  let a2 := a.y - d.y
  let a3 := a1 * a1 + a2 * a2
  let b1 := b.x - d.x
  let b2 := b.y - d.y
  let b3 := b1 * b1 + b2 * b2
  let c1 := c.x - d.x
  let c2 := c.y - d.y
  let c3 := c1 * c1 + c2 * c2
  a1 * (b2 * c3 - b3 * c2) - a2 * (b1 * c3 - b3 * c1) + a3 * (b1 * c2 - b2 * c1)

/-- Point `d` lies strictly inside the circumcircle of the non-degenerate
triangle `a b c`.  Multiplying by the orientation makes the predicate
independent of the order in which the triangle's vertices are listed. -/
def insideCircum (a b c d : Pt α) : Prop :=
  0 < cross a b c * icDet a b c d

instance (a b c d : Pt α) : Decidable (insideCircum a b c d) := by
  unfold insideCircum; exact inferInstance

/-- Squared euclidean distance between two points. -/
def sqDist (p q : Pt α) : α :=
  (p.x - q.x) ^ 2 + (p.y - q.y) ^ 2

/-- The candidate point coincides (within epsilon) with an already stored
point.  Modelled from the spec: "new point coincides (within epsilon) with
an existing one". -/
def coincides (eps : α) (pts : List (Pt α)) (p : Pt α) : Prop :=
  ∃ q ∈ pts, sqDist p q ≤ eps ^ 2

instance (eps : α) (pts : List (Pt α)) (p : Pt α) : Decidable (coincides eps pts p) := by
  unfold coincides; exact inferInstance

/-- Result of an insertion attempt.  Modelled from the spec:
"insert(point) -> InsertionResult{success | CollinearSeedError |
DuplicatePointError}". -/
inductive InsertionResult where
  | success
  | collinearSeedError
  | duplicatePointError
deriving DecidableEq

/-- The engine state: the coincidence tolerance and the append-only list of
inserted points.  Modelled from the spec: the incremental engine's
observable state after completed insertions; triangles are derived from the
point set by the empty-circumcircle characterization (spec glossary:
"triangulation of a point set where no point lies inside the circumcircle
of any triangle"). -/
structure Engine (α : Type) where
  eps : α
  points : List (Pt α)
deriving DecidableEq

/-- Engine construction from the three seed points.  Modelled from the
spec: "if three initial seed points are collinear, insertion must fail fast
with a CollinearSeedError before any triangle is created". -/
def seedEngine (eps : α) (a b c : Pt α) : Except InsertionResult (Engine α) :=
  if cross a b c = 0 then Except.error InsertionResult.collinearSeedError
  else Except.ok (Engine.mk eps [a, b, c])

/-- Insert one point.  Modelled from the spec: "Coincident point insertion
(distance below epsilon from an existing point) is rejected with a
DuplicatePointError"; a failed insertion leaves the engine unchanged
("failed insertions are rolled back atomically"). -/
def Engine.insert (e : Engine α) (p : Pt α) : InsertionResult × Engine α :=
  if coincides e.eps e.points p then (InsertionResult.duplicatePointError, e)
  else (InsertionResult.success, Engine.mk e.eps (e.points ++ [p]))

/-- Point lookup by index, with an arbitrary default out of range. -/
def pget (pts : List (Pt α)) (n : ℕ) : Pt α :=
  pts.getD n (Pt.mk 0 0)

/-- The triple of indices `i < j < k` names a live Delaunay triangle of the
point list: its vertices are not collinear and no other stored point lies
strictly inside its circumcircle.  Modelled from the spec: "invariant —
every live triangle satisfies the Delaunay (empty circumcircle) property
with respect to all inserted points". -/
def isDelaunayTri (pts : List (Pt α)) (i j k : ℕ) : Prop :=
  i < j ∧ j < k ∧ k < pts.length ∧
  cross (pget pts i) (pget pts j) (pget pts k) ≠ 0 ∧
  ∀ l < pts.length, l ≠ i → l ≠ j → l ≠ k →
    ¬ insideCircum (pget pts i) (pget pts j) (pget pts k) (pget pts l)

instance (pts : List (Pt α)) (i j k : ℕ) : Decidable (isDelaunayTri pts i j k) := by
  unfold isDelaunayTri; exact inferInstance

/-- All live Delaunay triangles of the point list, as index triples in
increasing order.  Modelled from the spec: "Triangle: ordered triple of
point indices"; "triangles() -> sequence of Triangle (point-index
triples), snapshot". -/
def delaunayTriangles (pts : List (Pt α)) : List (ℕ × ℕ × ℕ) :=
  (List.range pts.length).flatMap fun i =>
    (List.range pts.length).flatMap fun j =>
      (List.range pts.length).filterMap fun k =>
        if isDelaunayTri pts i j k then some (i, j, k) else none

/-- The engine's triangle snapshot. -/
def Engine.triangles (e : Engine α) : List (ℕ × ℕ × ℕ) :=
  delaunayTriangles e.points

/-- Number of live triangles in the snapshot. -/
def Engine.triangleCount (e : Engine α) : ℕ :=
  e.triangles.length

/-! ### Embedding of the script's module-level data and update loop

These definitions are translated from `DelaunayVoronoiCreator.py`: the
seeded random generator and `all_points` (lines 36-46), and the
`update(frame)` callback of `main` (lines 78-108).  The external library
calls `Delaunay(pts)` and `Voronoi(pts)` are abstracted as arbitrary
fallible functions, and the generator behind `np.random.rand` as an
arbitrary stateful generator. -/

instance [Inhabited α] : Inhabited (Pt α) :=
  ⟨Pt.mk default default⟩

/-- One call of the `update` callback on the current point list:
`current_points.append(all_points[frame])` (line 82). -/
def updateStep {β : Type} [Inhabited β] (allPts cur : List β) (frame : ℕ) : List β :=
  cur ++ [allPts.getD frame default]

/-- The current point list after the animation has run frames `0..f`
(FuncAnimation calls `update` once per frame in order, line 110). -/
def framePoints {β : Type} [Inhabited β] (allPts : List β) : ℕ → List β
  | 0 => updateStep allPts [] 0
  | f + 1 => updateStep allPts (framePoints allPts f) (f + 1)

/-- What one frame draws: the red point markers, the Delaunay result (if
attempted and successful), the Voronoi result (if attempted and
successful), and the two caught-exception flags (lines 90-107). -/
structure FrameDraw (β γ δ : Type) where
  markers : List β
  triResult : Option γ
  vorResult : Option δ
  delaunayFailed : Bool
  voronoiFailed : Bool
deriving DecidableEq

/-- The drawing part of `update` (lines 90-107): markers always; if
`len(pts) >= 3`, try the Delaunay library call, and on its success try the
Voronoi library call, catching each failure separately. -/
def updateDraw {β γ δ E F : Type} (dl : List β → Except E γ) (vor : List β → Except F δ)
    (pts : List β) : FrameDraw β γ δ :=
  if 3 ≤ pts.length then
    match dl pts with
    | Except.ok t =>
      match vor pts with
      | Except.ok v => FrameDraw.mk pts (some t) (some v) false false
      | Except.error _ => FrameDraw.mk pts (some t) none false true
    | Except.error _ => FrameDraw.mk pts none none true false
  else FrameDraw.mk pts none none false false

/-- The full output of frame `f`: `update` applied to the accumulated
point list. -/
def frameDraw {β γ δ E F : Type} [Inhabited β] (dl : List β → Except E γ)
    (vor : List β → Except F δ) (allPts : List β) (f : ℕ) : FrameDraw β γ δ :=
  updateDraw dl vor (framePoints allPts f)

/-- An abstract stateful random generator: `seed` resets the global state
from an integer (as `np.random.seed` does), `next` yields one point. -/
structure Gen (σ β : Type) where
  seed : ℕ → σ
  next : σ → β × σ

/-- Draw `n` points from the generator. -/
def genPoints {σ β : Type} (g : Gen σ β) : σ → ℕ → List β
  | _, 0 => []
  | st, n + 1 => (g.next st).1 :: genPoints g (g.next st).2 n

/-- The seed constant of line 36: `np.random.seed(42)`. -/
def seedValue : ℕ := 42

/-- `POINT_COUNT = 1000` (line 38). -/
def POINT_COUNT : ℕ := 1000

/-- The three fixed seed points of `all_points` (lines 42-44):
(0.2, 0.2), (0.8, 0.2), (0.5, 0.8). -/
def seedPoints : List (Pt ℚ) :=
  [Pt.mk (1/5) (1/5), Pt.mk (4/5) (1/5), Pt.mk (1/2) (4/5)]

/-- Module initialization (line 36): the generator state is reset from the
constant seed, discarding whatever ambient state the process started
with. -/
def moduleInit {σ : Type} (g : Gen σ (Pt ℚ)) (_ambient : σ) : σ :=
  g.seed seedValue

/-- `all_points` (lines 41-46): the three fixed seed points followed by
`POINT_COUNT` generated points. -/
def allPointsOf {σ : Type} (g : Gen σ (Pt ℚ)) (ambient : σ) : List (Pt ℚ) :=
  seedPoints ++ genPoints g (moduleInit g ambient) POINT_COUNT

/-- Concrete Delaunay library stand-in used by witnesses. -/
def dlNat : List ℕ → Except Unit ℕ :=
  fun pts => Except.ok pts.length

/-- Concrete Voronoi library stand-in used by witnesses. -/
def vorNat : List ℕ → Except Unit ℕ :=
  fun pts => Except.ok (pts.length + 1)

/-- Scenario engine over `ℤ` coordinates scaled by 10: the three seed
points (2,2), (8,2), (5,8). -/
def zEngine : Engine ℤ :=
  Engine.mk 0 [Pt.mk 2 2, Pt.mk 8 2, Pt.mk 5 8]

/-- Scenario engine over `ℤ` coordinates scaled by 10: the three seed
points with the center point (5,5) inserted. -/
def zEngine4 : Engine ℤ :=
  Engine.mk 0 [Pt.mk 2 2, Pt.mk 8 2, Pt.mk 5 8, Pt.mk 5 5]

/-! ### C6: insertion-order independence

The predicates below restate Delaunay-triangle membership in terms of the
vertex coordinates instead of point indices, which makes the dependence on
the point list be through its underlying set only. -/

/-- A triangle described by its vertex coordinates is Delaunay for the
point list: all three vertices are stored, they are not collinear, and no
other stored point lies strictly inside their circumcircle. -/
def isDelaunayVerts (pts : List (Pt α)) (a b c : Pt α) : Prop :=
  a ∈ pts ∧ b ∈ pts ∧ c ∈ pts ∧
  cross a b c ≠ 0 ∧
  ∀ d ∈ pts, d ≠ a → d ≠ b → d ≠ c → ¬ insideCircum a b c d

/-- The snapshot triangulation as a set of vertex-coordinate triangles
(each triangle is the set of its three vertices), the form in which two
insertion orders can be compared. -/
def triangleVertexSets (pts : List (Pt α)) : Finset (Finset (Pt α)) :=
  ((delaunayTriangles pts).map fun t =>
    ({pget pts t.1, pget pts t.2.1, pget pts t.2.2} : Finset (Pt α))).toFinset

/-- The engine's triangulation as a set of vertex-coordinate triangles. -/
def Engine.triangleSet (e : Engine α) : Finset (Finset (Pt α)) :=
  triangleVertexSets e.points

/-- Reversed-order copy of the four-point scenario engine. -/
def zEngine4R : Engine ℤ :=
  Engine.mk 0 [Pt.mk 5 5, Pt.mk 5 8, Pt.mk 8 2, Pt.mk 2 2]

/-! ### The Voronoi dual extractor (spec section 4.4)

Circumcenters require division, so this part is stated over a linearly
ordered field of coordinates. -/

/-- Squared norm of a point seen as a vector. -/
def sqNorm (p : Pt α) : α :=
  p.x * p.x + p.y * p.y

/-- Circumcenter of a triangle, `none` for a degenerate (collinear)
triple.  Modelled from the spec: "For each live triangle, compute
circumcenter (exists always for non-degenerate triangles; nearly-degenerate
slivers must be flagged rather than producing a circumcenter at
infinity)". -/
def circumcenter {F : Type} [LinearOrderedField F] (a b c : Pt F) : Option (Pt F) :=
  if cross a b c = 0 then none
  else
    some (Pt.mk
      ((sqNorm a * (b.y - c.y) + sqNorm b * (c.y - a.y) + sqNorm c * (a.y - b.y)) /
        (2 * cross a b c))
      ((sqNorm a * (c.x - b.x) + sqNorm b * (a.x - c.x) + sqNorm c * (b.x - a.x)) /
        (2 * cross a b c)))

/-- The vertex indices of a triangle. -/
def triVerts (t : ℕ × ℕ × ℕ) : List ℕ :=
  [t.1, t.2.1, t.2.2]

/-- The triangles of a snapshot incident to point index `i`.  Modelled
from the spec: "For each point, traverse triangles incident to it". -/
def incidentTriangles (tris : List (ℕ × ℕ × ℕ)) (i : ℕ) : List (ℕ × ℕ × ℕ) :=
  tris.filter fun t => decide (i ∈ triVerts t)

/-- Two distinct triangles are adjacent across an edge through point `i`:
both contain `i` and share another vertex. -/
def shareEdgeThrough (i : ℕ) (t₁ t₂ : ℕ × ℕ × ℕ) : Prop :=
  t₁ ≠ t₂ ∧ ∃ j ∈ triVerts t₁, j ≠ i ∧ j ∈ triVerts t₂

instance (i : ℕ) (t₁ t₂ : ℕ × ℕ × ℕ) : Decidable (shareEdgeThrough i t₁ t₂) := by
  unfold shareEdgeThrough; exact inferInstance

/-- All unordered pairs of a list, each pair listed once. -/
def allPairs {β : Type} : List β → List (β × β)
  | [] => []
  | x :: xs => (xs.map fun y => (x, y)) ++ allPairs xs

/-- The boundary segments of the Voronoi cell of point index `i`: one
segment between the circumcenters of each pair of adjacent triangles
incident to `i`.  Modelled from the spec: "Voronoi Cell ... bounded by
segments connecting circumcenters of triangles incident to that point". -/
def voronoiCellSegments {F : Type} [LinearOrderedField F] (pts : List (Pt F)) (i : ℕ) :
    List (Pt F × Pt F) :=
  ((allPairs (incidentTriangles (delaunayTriangles pts) i)).filter fun tp =>
      decide (shareEdgeThrough i tp.1 tp.2)).filterMap fun tp =>
    match circumcenter (pget pts tp.1.1) (pget pts tp.1.2.1) (pget pts tp.1.2.2),
        circumcenter (pget pts tp.2.1) (pget pts tp.2.2.1) (pget pts tp.2.2.2) with
    | some c₁, some c₂ => some (c₁, c₂)
    | _, _ => none

/-- One output cell entry of the Voronoi extraction pass: either a
computed circumcenter for a triangle, or the triangle flagged as
degenerate. -/
inductive CellEntry (F : Type) where
  | center (t : ℕ × ℕ × ℕ) (c : Pt F)
  | flagged (t : ℕ × ℕ × ℕ)
deriving DecidableEq

/-- The triangle an extraction entry refers to. -/
def entryTri {F : Type} : CellEntry F → ℕ × ℕ × ℕ
  | CellEntry.center t _ => t
  | CellEntry.flagged t => t

/-- The circumcenter pass of Voronoi extraction over the live triangles of
a mesh: compute each triangle's circumcenter, flagging degenerate
triangles instead of failing.  Modelled from the spec: "a near-zero-area
triangle or unbounded circumcenter is detected during Voronoi extraction;
recoverable — the affected cell is flagged rather than the whole
extraction failing". -/
def extractCircumcenters {F : Type} [LinearOrderedField F] (pts : List (Pt F))
    (tris : List (ℕ × ℕ × ℕ)) : List (CellEntry F) :=
  tris.map fun t =>
    match circumcenter (pget pts t.1) (pget pts t.2.1) (pget pts t.2.2) with
    | some c => CellEntry.center t c
    | none => CellEntry.flagged t

/-! ### C7: the concrete four-point scenario

The scenario coordinates 0.2, 0.8, 0.5 are rationals with denominator 10;
geometric predicates over them transport along the embedding
`deciPt : Pt ℤ → Pt ℚ` that divides integer coordinates by 10, which lets
the combinatorial part of the computation be carried out over `ℤ`. -/

/-- Integer points scaled into tenths. -/
def deciPt (p : Pt ℤ) : Pt ℚ :=
  Pt.mk ((p.x : ℚ) / 10) ((p.y : ℚ) / 10)

/-- Seed point (0.2, 0.2). -/
def qA : Pt ℚ := Pt.mk (1/5) (1/5)

/-- Seed point (0.8, 0.2). -/
def qB : Pt ℚ := Pt.mk (4/5) (1/5)

/-- Seed point (0.5, 0.8). -/
def qC : Pt ℚ := Pt.mk (1/2) (4/5)

/-- The inserted point (0.5, 0.5). -/
def qP : Pt ℚ := Pt.mk (1/2) (1/2)

set_option maxRecDepth 100000

theorem mem_delaunayTriangles {pts : List (Pt α)} {i j k : ℕ} :
    (i, j, k) ∈ delaunayTriangles pts ↔ isDelaunayTri pts i j k := by
  unfold delaunayTriangles
  simp only [List.mem_flatMap, List.mem_filterMap, List.mem_range]
  constructor
  · rintro ⟨a, _, b, _, c, _, h⟩
    by_cases hd : isDelaunayTri pts a b c
    · rw [if_pos hd] at h
      cases h
      exact hd
    · rw [if_neg hd] at h
      exact Option.noConfusion h
  · intro h
    obtain ⟨hij, hjk, hk, -, -⟩ := id h
    exact ⟨i, lt_trans (lt_trans hij hjk) hk, j, lt_trans hjk hk, k, hk, by rw [if_pos h]⟩

theorem genPoints_length {σ β : Type} (g : Gen σ β) (st : σ) (n : ℕ) :
    (genPoints g st n).length = n := by
  induction n generalizing st with
  | zero => rfl
  | succ n ih => simp [genPoints, ih]

theorem framePoints_eq_take {β : Type} [Inhabited β] (allPts : List β) (f : ℕ)
    (hf : f < allPts.length) : framePoints allPts f = allPts.take (f + 1) := by
  induction f with
  | zero =>
    show [] ++ [allPts.getD 0 default] = allPts.take 1
    rw [List.take_succ]
    simp [List.getElem?_eq_getElem (show 0 < allPts.length from hf)]
  | succ f ih =>
    show framePoints allPts f ++ [allPts.getD (f + 1) default] = allPts.take (f + 1 + 1)
    rw [List.take_succ, List.getElem?_eq_getElem hf, ih (lt_trans (Nat.lt_succ_self f) hf)]
    simp [List.getD_eq_getElem?_getD, List.getElem?_eq_getElem hf]

/-! ### Claims about the script's update loop (C2, C9, C10) -/

/-- C2: for every frame index `f` (in range), the point set drawn at frame
`f` is exactly the first `f + 1` entries of `all_points`, and hence the
whole frame output — in particular the triangulation, which `update`
recomputes from scratch by calling the library on the full current point
list — equals the batch recomputation on that prefix, for every behavior
of the Delaunay and Voronoi library calls. -/
theorem incremental_equals_batch {β γ δ E F : Type} [Inhabited β]
    (dl : List β → Except E γ) (vor : List β → Except F δ) (allPts : List β)
    (f : ℕ) (hf : f < allPts.length) :
    framePoints allPts f = allPts.take (f + 1) ∧
    frameDraw dl vor allPts f = updateDraw dl vor (allPts.take (f + 1)) := by
  have h := framePoints_eq_take allPts f hf
  exact ⟨h, by rw [frameDraw, h]⟩

theorem incremental_equals_batch_witness :
    framePoints [10, 20, 30, 40] 2 = [10, 20, 30, 40].take 3 ∧
    frameDraw dlNat vorNat [10, 20, 30, 40] 2 =
      updateDraw dlNat vorNat ([10, 20, 30, 40].take 3) :=
  incremental_equals_batch dlNat vorNat [10, 20, 30, 40] 2 (by decide)

/-- C9: the generator is seeded with the constant 42 at module load, so
`all_points` — the three fixed seed points followed by `POINT_COUNT`
generated points — does not depend on the ambient generator state the
process started with, and the point list of every frame is a function of
the frame index alone (for a fixed generator library). -/
theorem run_determinism {σ : Type} (g : Gen σ (Pt ℚ)) (env₁ env₂ : σ) (f : ℕ) :
    allPointsOf g env₁ = allPointsOf g env₂ ∧
    allPointsOf g env₁ = seedPoints ++ genPoints g (g.seed 42) POINT_COUNT ∧
    (allPointsOf g env₁).length = 3 + POINT_COUNT ∧
    framePoints (allPointsOf g env₁) f = framePoints (allPointsOf g env₂) f := by
  refine ⟨rfl, rfl, ?_, rfl⟩
  show (seedPoints ++ genPoints g (g.seed seedValue) POINT_COUNT).length = 3 + POINT_COUNT
  rw [List.length_append, genPoints_length]
  rfl

/-- C10: on every frame whose accumulated point set has fewer than 3
points, `update` draws only the point markers: the `len(pts) >= 3` guard
makes both library calls and both exception branches unreachable, so the
frame output is independent of the behavior of the Delaunay and Voronoi
libraries and carries no triangulation, no Voronoi diagram, and no error
flag. -/
theorem few_points_no_compute {β γ δ E F : Type} [Inhabited β]
    (dl₁ dl₂ : List β → Except E γ) (vor₁ vor₂ : List β → Except F δ)
    (allPts : List β) (f : ℕ) (h : (framePoints allPts f).length < 3) :
    frameDraw dl₁ vor₁ allPts f =
      FrameDraw.mk (framePoints allPts f) none none false false ∧
    frameDraw dl₁ vor₁ allPts f = frameDraw dl₂ vor₂ allPts f := by
  have hng : ¬ 3 ≤ (framePoints allPts f).length := Nat.not_le_of_lt h
  constructor
  · rw [frameDraw, updateDraw, if_neg hng]
  · rw [frameDraw, updateDraw, if_neg hng, frameDraw, updateDraw, if_neg hng]

theorem few_points_no_compute_witness :
    frameDraw dlNat vorNat [7, 8, 9] 0 =
      FrameDraw.mk (framePoints [7, 8, 9] 0) none none false false ∧
    frameDraw dlNat vorNat [7, 8, 9] 0 = frameDraw dlNat dlNat [7, 8, 9] 0 :=
  few_points_no_compute dlNat dlNat vorNat dlNat [7, 8, 9] 0 (by decide)

/-! ### Claims about the spec-modelled engine: error handling (C3, C4, C5) -/

/-- C3: inserting a point that coincides (within epsilon) with an already
stored point is rejected with `DuplicatePointError`, and the engine —
in particular its stored point list and its triangle count — is unchanged
by the failed insertion. -/
theorem duplicate_insert_rejected (e : Engine α) (p : Pt α)
    (h : coincides e.eps e.points p) :
    e.insert p = (InsertionResult.duplicatePointError, e) ∧
    (e.insert p).2.points = e.points ∧
    (e.insert p).2.triangleCount = e.triangleCount := by
  unfold Engine.insert
  rw [if_pos h]
  exact ⟨rfl, rfl, rfl⟩

theorem duplicate_insert_rejected_witness :
    zEngine.insert (Pt.mk 2 2) = (InsertionResult.duplicatePointError, zEngine) ∧
    (zEngine.insert (Pt.mk 2 2)).2.points = zEngine.points ∧
    (zEngine.insert (Pt.mk 2 2)).2.triangleCount = zEngine.triangleCount :=
  duplicate_insert_rejected zEngine (Pt.mk 2 2) (by decide)

/-- C4: if the three seed points are collinear, engine construction fails
with `CollinearSeedError` before any insertion proceeds, and no engine —
hence no triangle — is ever created. -/
theorem collinear_seed_fails (eps : α) (a b c : Pt α) (h : cross a b c = 0) :
    seedEngine eps a b c = Except.error InsertionResult.collinearSeedError ∧
    ∀ e : Engine α, seedEngine eps a b c ≠ Except.ok e := by
  unfold seedEngine
  rw [if_pos h]
  exact ⟨rfl, fun e hc => Except.noConfusion hc⟩

theorem collinear_seed_fails_witness :
    seedEngine (0 : ℤ) (Pt.mk 0 0) (Pt.mk 1 0) (Pt.mk 2 0) =
      Except.error InsertionResult.collinearSeedError ∧
    ∀ e : Engine ℤ, seedEngine (0 : ℤ) (Pt.mk 0 0) (Pt.mk 1 0) (Pt.mk 2 0) ≠ Except.ok e :=
  collinear_seed_fails 0 (Pt.mk 0 0) (Pt.mk 1 0) (Pt.mk 2 0) (by decide)

/-- C5: every insertion that does not return `success` leaves the engine
exactly as it was: failed insertions are atomic and never leave a
partially modified state. -/
theorem failed_insert_atomic (e : Engine α) (p : Pt α)
    (h : (e.insert p).1 ≠ InsertionResult.success) :
    (e.insert p).2 = e := by
  unfold Engine.insert at h ⊢
  by_cases hc : coincides e.eps e.points p
  · rw [if_pos hc]
  · rw [if_neg hc] at h
    exact absurd rfl h

theorem failed_insert_atomic_witness :
    (zEngine.insert (Pt.mk 2 2)).1 ≠ InsertionResult.success ∧
    (zEngine.insert (Pt.mk 2 2)).2 = zEngine :=
  ⟨by decide, failed_insert_atomic zEngine (Pt.mk 2 2) (by decide)⟩

/-! ### C1: the empty-circumcircle invariant -/

/-- C1: after every completed insertion — i.e. in every engine state, in
particular those built from a duplicate-free point set with a
non-collinear seed triangle — every live triangle of the snapshot has an
empty circumcircle: no other stored point lies strictly inside it. -/
theorem empty_circumcircle_invariant (e : Engine α) (hnd : e.points.Nodup)
    (hseed : cross (pget e.points 0) (pget e.points 1) (pget e.points 2) ≠ 0)
    (i j k : ℕ) (ht : (i, j, k) ∈ e.triangles) (l : ℕ) (hl : l < e.points.length)
    (hli : l ≠ i) (hlj : l ≠ j) (hlk : l ≠ k) :
    ¬ insideCircum (pget e.points i) (pget e.points j) (pget e.points k)
      (pget e.points l) := by
  have h := mem_delaunayTriangles.mp ht
  exact h.2.2.2.2 l hl hli hlj hlk

theorem empty_circumcircle_invariant_witness :
    zEngine4.points.Nodup ∧
    ¬ insideCircum (pget zEngine4.points 0) (pget zEngine4.points 1)
      (pget zEngine4.points 3) (pget zEngine4.points 2) :=
  ⟨by decide,
    empty_circumcircle_invariant zEngine4 (by decide) (by decide) 0 1 3
      (by decide) 2 (by decide) (by decide) (by decide) (by decide)⟩

theorem cross_swap12 (a b c : Pt α) : cross b a c = - cross a b c := by
  simp only [cross]; ring

theorem cross_cyc (a b c : Pt α) : cross b c a = cross a b c := by
  simp only [cross]; ring

theorem cross_self12 (a c : Pt α) : cross a a c = 0 := by
  simp only [cross]; ring

theorem cross_self13 (a b : Pt α) : cross a b a = 0 := by
  simp only [cross]; ring

theorem cross_self23 (a b : Pt α) : cross a b b = 0 := by
  simp only [cross]; ring

theorem crossIcDet_swap12 (a b c d : Pt α) :
    cross b a c * icDet b a c d = cross a b c * icDet a b c d := by
  simp only [cross, icDet]; ring

theorem crossIcDet_cyc (a b c d : Pt α) :
    cross b c a * icDet b c a d = cross a b c * icDet a b c d := by
  simp only [cross, icDet]; ring

theorem insideCircum_swap12 (a b c d : Pt α) :
    insideCircum b a c d ↔ insideCircum a b c d := by
  unfold insideCircum; rw [crossIcDet_swap12]

theorem insideCircum_cyc (a b c d : Pt α) :
    insideCircum b c a d ↔ insideCircum a b c d := by
  unfold insideCircum; rw [crossIcDet_cyc]

theorem isDelaunayVerts_swap12 (pts : List (Pt α)) (a b c : Pt α) :
    isDelaunayVerts pts b a c ↔ isDelaunayVerts pts a b c := by
  unfold isDelaunayVerts
  constructor
  · rintro ⟨h1, h2, h3, h4, h5⟩
    rw [cross_swap12, neg_ne_zero] at h4
    exact ⟨h2, h1, h3, h4, fun d hd hda hdb hdc hin =>
      h5 d hd hdb hda hdc ((insideCircum_swap12 a b c d).mpr hin)⟩
  · rintro ⟨h1, h2, h3, h4, h5⟩
    exact ⟨h2, h1, h3, by rw [cross_swap12, neg_ne_zero]; exact h4,
      fun d hd hdb hda hdc hin =>
        h5 d hd hda hdb hdc ((insideCircum_swap12 a b c d).mp hin)⟩

theorem isDelaunayVerts_cyc (pts : List (Pt α)) (a b c : Pt α) :
    isDelaunayVerts pts b c a ↔ isDelaunayVerts pts a b c := by
  unfold isDelaunayVerts
  constructor
  · rintro ⟨h1, h2, h3, h4, h5⟩
    rw [cross_cyc] at h4
    exact ⟨h3, h1, h2, h4, fun d hd hda hdb hdc hin =>
      h5 d hd hdb hdc hda ((insideCircum_cyc a b c d).mpr hin)⟩
  · rintro ⟨h1, h2, h3, h4, h5⟩
    exact ⟨h2, h3, h1, by rw [cross_cyc]; exact h4,
      fun d hd hdb hdc hda hin =>
        h5 d hd hda hdb hdc ((insideCircum_cyc a b c d).mp hin)⟩

theorem isDelaunayVerts_perm213 (pts : List (Pt α)) (a b c : Pt α) :
    isDelaunayVerts pts b a c ↔ isDelaunayVerts pts a b c :=
  isDelaunayVerts_swap12 pts a b c

theorem isDelaunayVerts_perm231 (pts : List (Pt α)) (a b c : Pt α) :
    isDelaunayVerts pts b c a ↔ isDelaunayVerts pts a b c :=
  isDelaunayVerts_cyc pts a b c

theorem isDelaunayVerts_perm312 (pts : List (Pt α)) (a b c : Pt α) :
    isDelaunayVerts pts c a b ↔ isDelaunayVerts pts a b c :=
  (isDelaunayVerts_cyc pts b c a).trans (isDelaunayVerts_perm231 pts a b c)

theorem isDelaunayVerts_perm132 (pts : List (Pt α)) (a b c : Pt α) :
    isDelaunayVerts pts a c b ↔ isDelaunayVerts pts a b c :=
  (isDelaunayVerts_cyc pts b a c).trans (isDelaunayVerts_swap12 pts a b c)

theorem isDelaunayVerts_perm321 (pts : List (Pt α)) (a b c : Pt α) :
    isDelaunayVerts pts c b a ↔ isDelaunayVerts pts a b c :=
  (isDelaunayVerts_swap12 pts b c a).trans (isDelaunayVerts_perm231 pts a b c)

theorem pget_eq_getElem (pts : List (Pt α)) (n : ℕ) (h : n < pts.length) :
    pget pts n = pts[n] := by
  unfold pget
  rw [List.getD_eq_getElem?_getD, List.getElem?_eq_getElem h]
  rfl

theorem pget_mem (pts : List (Pt α)) {n : ℕ} (h : n < pts.length) :
    pget pts n ∈ pts := by
  rw [pget_eq_getElem pts n h]
  exact List.getElem_mem h

/-- Every index-level Delaunay triangle is a vertex-level Delaunay
triangle. -/
theorem isDelaunayVerts_of_tri {pts : List (Pt α)} {i j k : ℕ}
    (h : isDelaunayTri pts i j k) :
    isDelaunayVerts pts (pget pts i) (pget pts j) (pget pts k) := by
  obtain ⟨hij, hjk, hk, hx, hall⟩ := h
  have hj : j < pts.length := lt_trans hjk hk
  have hi : i < pts.length := lt_trans hij hj
  refine ⟨pget_mem pts hi, pget_mem pts hj, pget_mem pts hk, hx, ?_⟩
  intro d hd hda hdb hdc
  obtain ⟨l, hl, rfl⟩ := List.mem_iff_getElem.mp hd
  rw [← pget_eq_getElem pts l hl] at hda hdb hdc ⊢
  have hli : l ≠ i := fun he => hda (by rw [he])
  have hlj : l ≠ j := fun he => hdb (by rw [he])
  have hlk : l ≠ k := fun he => hdc (by rw [he])
  exact hall l hl hli hlj hlk

/-- Conversely, for a duplicate-free point list, a vertex-level Delaunay
triangle with sorted stored indices is an index-level Delaunay triangle. -/
theorem tri_of_verts {pts : List (Pt α)} (hnd : pts.Nodup) {i j k : ℕ}
    (hij : i < j) (hjk : j < k) (hk : k < pts.length)
    (h : isDelaunayVerts pts (pget pts i) (pget pts j) (pget pts k)) :
    isDelaunayTri pts i j k := by
  obtain ⟨-, -, -, hx, hall⟩ := h
  have hj : j < pts.length := lt_trans hjk hk
  have hi : i < pts.length := lt_trans hij hj
  refine ⟨hij, hjk, hk, hx, ?_⟩
  intro l hl hli hlj hlk
  apply hall (pget pts l) (pget_mem pts hl)
  · rw [pget_eq_getElem pts l hl, pget_eq_getElem pts i hi]
    exact fun he => hli (hnd.getElem_inj_iff.mp he)
  · rw [pget_eq_getElem pts l hl, pget_eq_getElem pts j hj]
    exact fun he => hlj (hnd.getElem_inj_iff.mp he)
  · rw [pget_eq_getElem pts l hl, pget_eq_getElem pts k hk]
    exact fun he => hlk (hnd.getElem_inj_iff.mp he)

theorem tripleFinset_213 (a b c : Pt α) :
    ({b, a, c} : Finset (Pt α)) = {a, b, c} := by
  ext x; simp only [Finset.mem_insert, Finset.mem_singleton]; tauto

theorem tripleFinset_231 (a b c : Pt α) :
    ({b, c, a} : Finset (Pt α)) = {a, b, c} := by
  ext x; simp only [Finset.mem_insert, Finset.mem_singleton]; tauto

theorem tripleFinset_312 (a b c : Pt α) :
    ({c, a, b} : Finset (Pt α)) = {a, b, c} := by
  ext x; simp only [Finset.mem_insert, Finset.mem_singleton]; tauto

theorem tripleFinset_132 (a b c : Pt α) :
    ({a, c, b} : Finset (Pt α)) = {a, b, c} := by
  ext x; simp only [Finset.mem_insert, Finset.mem_singleton]; tauto

theorem tripleFinset_321 (a b c : Pt α) :
    ({c, b, a} : Finset (Pt α)) = {a, b, c} := by
  ext x; simp only [Finset.mem_insert, Finset.mem_singleton]; tauto

theorem sorted_tri_mem_vertexSets {pts : List (Pt α)} (hnd : pts.Nodup) {i j k : ℕ}
    (hij : i < j) (hjk : j < k) (hk : k < pts.length)
    (hD : isDelaunayVerts pts (pget pts i) (pget pts j) (pget pts k)) :
    ∃ t ∈ delaunayTriangles pts,
      ({pget pts t.1, pget pts t.2.1, pget pts t.2.2} : Finset (Pt α)) =
        {pget pts i, pget pts j, pget pts k} :=
  ⟨(i, j, k), mem_delaunayTriangles.mpr (tri_of_verts hnd hij hjk hk hD), rfl⟩

/-- Membership characterization of the vertex-set triangulation: a vertex
set belongs to it exactly when it is a vertex-level Delaunay triangle of
the stored point set. -/
theorem mem_triangleVertexSets {pts : List (Pt α)} (hnd : pts.Nodup)
    {s : Finset (Pt α)} :
    s ∈ triangleVertexSets pts ↔
      ∃ a b c, s = {a, b, c} ∧ isDelaunayVerts pts a b c := by
  unfold triangleVertexSets
  rw [List.mem_toFinset, List.mem_map]
  constructor
  · rintro ⟨⟨i, j, k⟩, ht, rfl⟩
    exact ⟨_, _, _, rfl, isDelaunayVerts_of_tri (mem_delaunayTriangles.mp ht)⟩
  · rintro ⟨a, b, c, rfl, hD⟩
    have hxabc : cross a b c ≠ 0 := hD.2.2.2.1
    have hab : a ≠ b := fun he => hxabc (by rw [he]; exact cross_self12 b c)
    have hac : a ≠ c := fun he => hxabc (by rw [he]; exact cross_self13 c b)
    have hbc : b ≠ c := fun he => hxabc (by rw [he]; exact cross_self23 a c)
    obtain ⟨ia, hia, hA⟩ := List.mem_iff_getElem.mp hD.1
    obtain ⟨ib, hib, hB⟩ := List.mem_iff_getElem.mp hD.2.1
    obtain ⟨ic, hic, hC⟩ := List.mem_iff_getElem.mp hD.2.2.1
    rw [← pget_eq_getElem pts ia hia] at hA
    rw [← pget_eq_getElem pts ib hib] at hB
    rw [← pget_eq_getElem pts ic hic] at hC
    have hiab : ia ≠ ib := fun he => hab (by rw [← hA, ← hB, he])
    have hiac : ia ≠ ic := fun he => hac (by rw [← hA, ← hC, he])
    have hibc : ib ≠ ic := fun he => hbc (by rw [← hB, ← hC, he])
    rcases Nat.lt_trichotomy ia ib with h1 | h1 | h1
    · rcases Nat.lt_trichotomy ib ic with h2 | h2 | h2
      · -- ia < ib < ic : vertex order (a, b, c)
        obtain ⟨t, ht, hs⟩ := sorted_tri_mem_vertexSets hnd h1 h2 hic
          (by rw [hA, hB, hC]; exact hD)
        exact ⟨t, ht, hs.trans (by rw [hA, hB, hC])⟩
      · exact absurd h2 hibc
      · rcases Nat.lt_trichotomy ia ic with h3 | h3 | h3
        · -- ia < ic < ib : vertex order (a, c, b)
          obtain ⟨t, ht, hs⟩ := sorted_tri_mem_vertexSets hnd h3 h2 hib
            (by rw [hA, hB, hC]; exact (isDelaunayVerts_perm132 pts a b c).mpr hD)
          exact ⟨t, ht, hs.trans (by rw [hA, hB, hC]; exact tripleFinset_132 a b c)⟩
        · exact absurd h3 hiac
        · -- ic < ia < ib : vertex order (c, a, b)
          obtain ⟨t, ht, hs⟩ := sorted_tri_mem_vertexSets hnd h3 h1 hib
            (by rw [hA, hB, hC]; exact (isDelaunayVerts_perm312 pts a b c).mpr hD)
          exact ⟨t, ht, hs.trans (by rw [hA, hB, hC]; exact tripleFinset_312 a b c)⟩
    · exact absurd h1 hiab
    · rcases Nat.lt_trichotomy ia ic with h2 | h2 | h2
      · -- ib < ia < ic : vertex order (b, a, c)
        obtain ⟨t, ht, hs⟩ := sorted_tri_mem_vertexSets hnd h1 h2 hic
          (by rw [hA, hB, hC]; exact (isDelaunayVerts_perm213 pts a b c).mpr hD)
        exact ⟨t, ht, hs.trans (by rw [hA, hB, hC]; exact tripleFinset_213 a b c)⟩
      · exact absurd h2 hiac
      · rcases Nat.lt_trichotomy ib ic with h3 | h3 | h3
        · -- ib < ic < ia : vertex order (b, c, a)
          obtain ⟨t, ht, hs⟩ := sorted_tri_mem_vertexSets hnd h3 h2 hia
            (by rw [hA, hB, hC]; exact (isDelaunayVerts_perm231 pts a b c).mpr hD)
          exact ⟨t, ht, hs.trans (by rw [hA, hB, hC]; exact tripleFinset_231 a b c)⟩
        · exact absurd h3 hibc
        · -- ic < ib < ia : vertex order (c, b, a)
          obtain ⟨t, ht, hs⟩ := sorted_tri_mem_vertexSets hnd h3 h1 hia
            (by rw [hA, hB, hC]; exact (isDelaunayVerts_perm321 pts a b c).mpr hD)
          exact ⟨t, ht, hs.trans (by rw [hA, hB, hC]; exact tripleFinset_321 a b c)⟩

theorem isDelaunayVerts_perm {pts₁ pts₂ : List (Pt α)} (hp : pts₁.Perm pts₂)
    (a b c : Pt α) :
    isDelaunayVerts pts₁ a b c ↔ isDelaunayVerts pts₂ a b c := by
  unfold isDelaunayVerts
  constructor
  · rintro ⟨h1, h2, h3, h4, h5⟩
    exact ⟨hp.mem_iff.mp h1, hp.mem_iff.mp h2, hp.mem_iff.mp h3, h4,
      fun d hd => h5 d (hp.mem_iff.mpr hd)⟩
  · rintro ⟨h1, h2, h3, h4, h5⟩
    exact ⟨hp.mem_iff.mpr h1, hp.mem_iff.mpr h2, hp.mem_iff.mpr h3, h4,
      fun d hd => h5 d (hp.mem_iff.mp hd)⟩

/-- C6: two engines holding the same duplicate-free point set in different
insertion orders have identical triangulations as sets of
(vertex-coordinate) triangles. -/
theorem order_independence (e₁ e₂ : Engine α) (hperm : e₁.points.Perm e₂.points)
    (hnd : e₁.points.Nodup) :
    e₁.triangleSet = e₂.triangleSet := by
  have hnd₂ : e₂.points.Nodup := hperm.nodup_iff.mp hnd
  apply Finset.ext
  intro s
  unfold Engine.triangleSet
  rw [mem_triangleVertexSets hnd, mem_triangleVertexSets hnd₂]
  constructor
  · rintro ⟨a, b, c, rfl, hD⟩
    exact ⟨a, b, c, rfl, (isDelaunayVerts_perm hperm a b c).mp hD⟩
  · rintro ⟨a, b, c, rfl, hD⟩
    exact ⟨a, b, c, rfl, (isDelaunayVerts_perm hperm a b c).mpr hD⟩

theorem order_independence_witness :
    zEngine4.triangleSet = zEngine4R.triangleSet :=
  order_independence zEngine4 zEngine4R (by decide) (by decide)

/-- C8: if a degenerate triangle (no circumcenter) is detected during
Voronoi extraction, the extraction still completes: the affected entry is
flagged, every other (non-degenerate) triangle still gets its
circumcenter, one entry is produced per live triangle, and the underlying
Delaunay triangle list is passed through unaffected. -/
theorem degenerate_voronoi_recoverable {F : Type} [LinearOrderedField F]
    (pts : List (Pt F)) (tris : List (ℕ × ℕ × ℕ)) (t : ℕ × ℕ × ℕ)
    (ht : t ∈ tris)
    (hdeg : circumcenter (pget pts t.1) (pget pts t.2.1) (pget pts t.2.2) = none) :
    CellEntry.flagged t ∈ extractCircumcenters pts tris ∧
    (extractCircumcenters pts tris).length = tris.length ∧
    (extractCircumcenters pts tris).map entryTri = tris ∧
    ∀ u ∈ tris, ∀ c,
      circumcenter (pget pts u.1) (pget pts u.2.1) (pget pts u.2.2) = some c →
      CellEntry.center u c ∈ extractCircumcenters pts tris := by
  refine ⟨?_, ?_, ?_, ?_⟩
  · exact List.mem_map.mpr ⟨t, ht, by rw [hdeg]⟩
  · exact List.length_map tris _
  · rw [extractCircumcenters, List.map_map]
    have h : ∀ u ∈ tris, (entryTri ∘ fun u =>
        match circumcenter (pget pts u.1) (pget pts u.2.1) (pget pts u.2.2) with
        | some c => CellEntry.center u c
        | none => CellEntry.flagged u) u = id u := by
      intro u _
      cases hc : circumcenter (pget pts u.1) (pget pts u.2.1) (pget pts u.2.2) with
      | none => simp [Function.comp, hc, entryTri]
      | some c => simp [Function.comp, hc, entryTri]
    rw [List.map_congr_left h, List.map_id]
  · intro u hu c hc
    exact List.mem_map.mpr ⟨u, hu, by rw [hc]⟩

theorem degenerate_voronoi_recoverable_witness :
    (0, 1, 2) ∈ ([(0, 1, 2)] : List (ℕ × ℕ × ℕ)) ∧
    CellEntry.flagged (0, 1, 2) ∈
      extractCircumcenters [Pt.mk (0 : ℚ) 0, Pt.mk 1 0, Pt.mk 2 0] [(0, 1, 2)] ∧
    (extractCircumcenters [Pt.mk (0 : ℚ) 0, Pt.mk 1 0, Pt.mk 2 0] [(0, 1, 2)]).map entryTri =
      [(0, 1, 2)] := by
  have hdeg : circumcenter (pget [Pt.mk (0 : ℚ) 0, Pt.mk 1 0, Pt.mk 2 0] 0)
      (pget [Pt.mk (0 : ℚ) 0, Pt.mk 1 0, Pt.mk 2 0] 1)
      (pget [Pt.mk (0 : ℚ) 0, Pt.mk 1 0, Pt.mk 2 0] 2) = none := by
    simp [pget, circumcenter, cross]
  have h := degenerate_voronoi_recoverable [Pt.mk (0 : ℚ) 0, Pt.mk 1 0, Pt.mk 2 0]
    [(0, 1, 2)] (0, 1, 2) (by simp) hdeg
  exact ⟨by simp, h.1, h.2.2.1⟩

theorem cross_deciPt (a b c : Pt ℤ) :
    cross (deciPt a) (deciPt b) (deciPt c) = ((cross a b c : ℤ) : ℚ) / 100 := by
  simp only [cross, deciPt]; push_cast; ring

theorem icDet_deciPt (a b c d : Pt ℤ) :
    icDet (deciPt a) (deciPt b) (deciPt c) (deciPt d) = ((icDet a b c d : ℤ) : ℚ) / 10000 := by
  simp only [icDet, deciPt]; push_cast; ring

theorem insideCircum_deciPt (a b c d : Pt ℤ) :
    insideCircum (deciPt a) (deciPt b) (deciPt c) (deciPt d) ↔ insideCircum a b c d := by
  unfold insideCircum
  rw [cross_deciPt, icDet_deciPt]
  have h : ((cross a b c : ℤ) : ℚ) / 100 * (((icDet a b c d : ℤ) : ℚ) / 10000) =
      ((cross a b c * icDet a b c d : ℤ) : ℚ) / 1000000 := by
    push_cast; ring
  rw [h, lt_div_iff₀ (by norm_num : (0 : ℚ) < 1000000), zero_mul, Int.cast_pos]

theorem pget_map_deciPt (pts : List (Pt ℤ)) (n : ℕ) :
    pget (pts.map deciPt) n = deciPt (pget pts n) := by
  unfold pget
  rw [List.getD_eq_getElem?_getD, List.getD_eq_getElem?_getD, List.getElem?_map]
  cases pts[n]? with
  | none => simp [deciPt]
  | some p => rfl

theorem isDelaunayTri_map_deciPt (pts : List (Pt ℤ)) (i j k : ℕ) :
    isDelaunayTri (pts.map deciPt) i j k ↔ isDelaunayTri pts i j k := by
  unfold isDelaunayTri
  rw [List.length_map]
  simp only [pget_map_deciPt]
  constructor
  · rintro ⟨h1, h2, h3, h4, h5⟩
    refine ⟨h1, h2, h3, ?_, ?_⟩
    · intro h0
      apply h4
      rw [cross_deciPt, h0]
      norm_num
    · exact fun l hl hi hj hk hin =>
        h5 l hl hi hj hk ((insideCircum_deciPt _ _ _ _).mpr hin)
  · rintro ⟨h1, h2, h3, h4, h5⟩
    refine ⟨h1, h2, h3, ?_, ?_⟩
    · rw [cross_deciPt]
      exact div_ne_zero (Int.cast_ne_zero.mpr h4) (by norm_num)
    · exact fun l hl hi hj hk hin =>
        h5 l hl hi hj hk ((insideCircum_deciPt _ _ _ _).mp hin)

theorem delaunayTriangles_map_deciPt (pts : List (Pt ℤ)) :
    delaunayTriangles (pts.map deciPt) = delaunayTriangles pts := by
  unfold delaunayTriangles
  rw [List.length_map]
  congr 1
  funext i
  congr 1
  funext j
  congr 1
  funext k
  exact if_congr (isDelaunayTri_map_deciPt pts i j k) rfl rfl

/-- C7: seeding the engine with (0.2,0.2), (0.8,0.2), (0.5,0.8) and then
inserting (0.5,0.5) succeeds and yields exactly 3 triangles, each having
the new point (index 3) as a vertex, and the new point's Voronoi cell is
bounded by exactly 3 segments. -/
theorem scenario_insert_center :
    seedEngine (0 : ℚ) qA qB qC = Except.ok (Engine.mk 0 [qA, qB, qC]) ∧
    ((Engine.mk (0 : ℚ) [qA, qB, qC]).insert qP).1 = InsertionResult.success ∧
    ((Engine.mk (0 : ℚ) [qA, qB, qC]).insert qP).2.triangles =
      [(0, 1, 3), (0, 2, 3), (1, 2, 3)] ∧
    (∀ t ∈ ((Engine.mk (0 : ℚ) [qA, qB, qC]).insert qP).2.triangles, 3 ∈ triVerts t) ∧
    (voronoiCellSegments [qA, qB, qC, qP] 3).length = 3 := by
  have hseed : cross qA qB qC ≠ 0 := by norm_num [cross, qA, qB, qC]
  have h1 : seedEngine (0 : ℚ) qA qB qC = Except.ok (Engine.mk 0 [qA, qB, qC]) := by
    unfold seedEngine
    rw [if_neg hseed]
  have hnc : ¬ coincides (0 : ℚ) [qA, qB, qC] qP := by
    norm_num [coincides, sqDist, qA, qB, qC, qP]
  have h2 : (Engine.mk (0 : ℚ) [qA, qB, qC]).insert qP =
      (InsertionResult.success, Engine.mk 0 ([qA, qB, qC] ++ [qP])) := by
    unfold Engine.insert
    rw [if_neg hnc]
  have hpts : ([qA, qB, qC, qP] : List (Pt ℚ)) =
      List.map deciPt [Pt.mk 2 2, Pt.mk 8 2, Pt.mk 5 8, Pt.mk 5 5] := by
    norm_num [qA, qB, qC, qP, deciPt]
  have htris : delaunayTriangles [qA, qB, qC, qP] = [(0, 1, 3), (0, 2, 3), (1, 2, 3)] := by
    rw [hpts, delaunayTriangles_map_deciPt]
    decide
  refine ⟨h1, by rw [h2], ?_, ?_, ?_⟩
  · rw [h2]
    exact htris
  · intro t ht
    rw [h2] at ht
    have ht2 : t ∈ [(0, 1, 3), (0, 2, 3), (1, 2, 3)] := htris ▸ ht
    simp only [List.mem_cons, List.not_mem_nil, or_false] at ht2
    rcases ht2 with rfl | rfl | rfl <;> decide
  · unfold voronoiCellSegments
    rw [htris]
    have hpairs : ((allPairs (incidentTriangles [(0, 1, 3), (0, 2, 3), (1, 2, 3)] 3)).filter
        fun tp => decide (shareEdgeThrough 3 tp.1 tp.2)) =
        [((0, 1, 3), (0, 2, 3)), ((0, 1, 3), (1, 2, 3)), ((0, 2, 3), (1, 2, 3))] := by
      decide
    rw [hpairs]
    have hpA : pget [qA, qB, qC, qP] 0 = qA := rfl
    have hpB : pget [qA, qB, qC, qP] 1 = qB := rfl
    have hpC : pget [qA, qB, qC, qP] 2 = qC := rfl
    have hpD : pget [qA, qB, qC, qP] 3 = qP := rfl
    obtain ⟨c1, hc1⟩ : ∃ c, circumcenter qA qB qP = some c := by
      unfold circumcenter
      rw [if_neg (show cross qA qB qP ≠ 0 by norm_num [cross, qA, qB, qP])]
      exact ⟨_, rfl⟩
    obtain ⟨c2, hc2⟩ : ∃ c, circumcenter qA qC qP = some c := by
      unfold circumcenter
      rw [if_neg (show cross qA qC qP ≠ 0 by norm_num [cross, qA, qC, qP])]
      exact ⟨_, rfl⟩
    obtain ⟨c3, hc3⟩ : ∃ c, circumcenter qB qC qP = some c := by
      unfold circumcenter
      rw [if_neg (show cross qB qC qP ≠ 0 by norm_num [cross, qB, qC, qP])]
      exact ⟨_, rfl⟩
    simp only [List.filterMap_cons, List.filterMap_nil, hpA, hpB, hpC, hpD,
      hc1, hc2, hc3]
    rfl
